import Mathlib

/-!
Verification of the conversation context manager, chat client and
conversation store of the `TOSS-Homework` chat bot (`src/main.rs`).

The Rust code is shallowly embedded: `Vec<Message>` becomes `List Message`,
in-place mutation becomes explicit state passing, and the panicking
`Vec::drain` call is modelled with `Option` (`none` = panic).  Rust's
`String::len` is the UTF-8 byte length, embedded as `String.utf8ByteSize`.
-/

/-- `struct Message { role: String, content: String }` (main.rs:43-47). -/
structure Message where
  role : String
  content : String
deriving DecidableEq, Repr

/-- `struct Conversation { timestamp: String, history: Vec<Message> }` (main.rs:37-41). -/
structure Conversation where
  timestamp : String
  history : List Message
deriving DecidableEq, Repr

/-- `struct QwenUsage { total_tokens: u32 }` (main.rs:69-72). -/
structure QwenUsage where
  total_tokens : Nat
deriving DecidableEq, Repr

/-- `struct QwenChoice { message: Message }` (main.rs:64-67). -/
structure QwenChoice where
  message : Message
deriving DecidableEq, Repr

/-- `struct QwenResponse { choices: Vec<QwenChoice>, usage: Option<QwenUsage> }` (main.rs:58-62). -/
structure QwenResponse where
  choices : List QwenChoice
  usage : Option QwenUsage
deriving DecidableEq, Repr

/-- The predicate of `messages.retain(|msg| msg.role == "system" || msg.content.len() <= max_tokens)`
(main.rs:162).  Rust `String::len` counts UTF-8 bytes. -/
def keepMsg (max_tokens : Nat) (m : Message) : Bool :=
  m.role == "system" || decide (m.content.utf8ByteSize ≤ max_tokens)

/-- The `retain` (filter) step of `trim_context` (main.rs:162). -/
def oversizeFilter (messages : List Message) (max_tokens : Nat) : List Message :=
  messages.filter (keepMsg max_tokens)

/-- `Iterator::position`: index of the first element satisfying `p`. -/
def position (p : Message → Bool) : List Message → Option Nat
  | [] => none
  | m :: rest => if p m then some 0 else (position p rest).map (· + 1)

/-- `messages.iter().position(|msg| msg.role != "system").unwrap_or(1)` (main.rs:166). -/
def firstNonSystem (messages : List Message) : Nat :=
  (position (fun m => m.role != "system") messages).getD 1

/-- `Vec::drain(a..b)`: removes the elements with indices in `[a, b)`.
Rust panics when `a > b` or `b > len`; the panic is modelled as `none`. -/
def drain (messages : List Message) (a b : Nat) : Option (List Message) :=
  if a ≤ b ∧ b ≤ messages.length then some (messages.take a ++ messages.drop b) else none

/-- `fn trim_context(messages: &mut Vec<Message>, max_tokens: usize)` (main.rs:156-169),
with the possible `drain` panic surfaced as `none`. -/
def trim_context (messages : List Message) (max_tokens : Nat) : Option (List Message) :=
  if messages.length ≤ 2 then
    some messages
  else if (oversizeFilter messages max_tokens).length > 3 then
    drain (oversizeFilter messages max_tokens)
      (firstNonSystem (oversizeFilter messages max_tokens))
      ((oversizeFilter messages max_tokens).length - 2)
  else
    some (oversizeFilter messages max_tokens)

/-- `reqwest::StatusCode::is_success`: `200 <= status < 300`. -/
def statusIsSuccess (status : Nat) : Bool :=
  decide (200 ≤ status) && decide (status < 300)

/-- The HTTP reply observed by `ask_qwen`: status code and raw body text. -/
structure HttpResponse where
  status : Nat
  body : String
deriving DecidableEq, Repr

/-- The error outcomes of `ask_qwen` (main.rs:114-128): the formatted
`"AI调用失败 ({status})：{body}"` error, a serde decode failure, and the
`"AI返回了空回复"` error. -/
inductive AskError where
  | remote (status : Nat) (body : String)
  | decode
  | emptyReply
deriving DecidableEq, Repr

/-- The response-handling tail of `fn ask_qwen` (main.rs:114-128).  The HTTP
transport and serde JSON parsing are abstracted: the function receives the
observed `HttpResponse` and the parse map `decodeBody` standing for
`serde_json::from_str::<QwenResponse>`. -/
def ask_qwen (resp : HttpResponse) (decodeBody : String → Option QwenResponse) :
    Except AskError (String × Nat) :=
  if !statusIsSuccess resp.status then
    .error (.remote resp.status resp.body)
  else
    match decodeBody resp.body with
    | none => .error .decode
    | some qwen_response =>
      match qwen_response.choices.head? with
      | some choice =>
        .ok (choice.message.content, (qwen_response.usage.map QwenUsage.total_tokens).getD 0)
      | none => .error .emptyReply

/-- JSON values, for the serialization performed by `save_conversation`
(main.rs:147-150) via `serde_json::to_string_pretty`. -/
inductive Json where
  | str : String → Json
  | arr : List Json → Json
  | obj : List (String × Json) → Json

/-- Field lookup in a JSON object. -/
def Json.lookupField (fields : List (String × Json)) (key : String) : Option Json :=
  match fields with
  | [] => none
  | (k, v) :: rest => if k == key then some v else lookupField rest key

/-- `#[derive(Serialize)]` for `Message`: `{ "role": ..., "content": ... }`. -/
def msgToJson (m : Message) : Json :=
  .obj [("role", .str m.role), ("content", .str m.content)]

/-- `#[derive(Deserialize)]` for `Message`. -/
def msgFromJson (j : Json) : Option Message :=
  match j with
  | .obj fields =>
    match Json.lookupField fields "role", Json.lookupField fields "content" with
    | some (.str r), some (.str c) => some ⟨r, c⟩
    | _, _ => none
  | _ => none

/-- Deserialize every element of a JSON array, failing if any element fails. -/
def msgsFromJson : List Json → Option (List Message)
  | [] => some []
  | j :: rest =>
    match msgFromJson j, msgsFromJson rest with
    | some m, some ms => some (m :: ms)
    | _, _ => none

/-- `#[derive(Serialize)]` for `Conversation`:
`{ "timestamp": ..., "history": [...] }` — the payload written by
`save_conversation` (main.rs:147-150). -/
def convToJson (c : Conversation) : Json :=
  .obj [("timestamp", .str c.timestamp), ("history", .arr (c.history.map msgToJson))]

/-- `#[derive(Deserialize)]` for `Conversation`: reloading a saved file. -/
def convFromJson (j : Json) : Option Conversation :=
  match j with
  | .obj fields =>
    match Json.lookupField fields "timestamp", Json.lookupField fields "history" with
    | some (.str ts), some (.arr js) =>
      match msgsFromJson js with
      | some ms => some ⟨ts, ms⟩
      | none => none
    | _, _ => none
  | _ => none

/-- The user turn pushed by the session loop (main.rs:325-328). -/
def userMsg (input : String) : Message :=
  ⟨"user", input⟩

/-- One failed exchange of the session loop (main.rs:324-357): push the user
turn, `trim_context`, and — `ask_qwen` having failed — `pop` the last turn
(`conversation.history.pop()`, main.rs:356).  `none` = the `drain` panic. -/
def failedExchange (history : List Message) (input : String) (budget : Nat) :
    Option (List Message) :=
  match trim_context (history ++ [userMsg input]) budget with
  | some trimmed => some trimmed.dropLast
  | none => none

/-- Number of turns whose role is `"system"`. -/
def sysCount (msgs : List Message) : Nat :=
  msgs.countP (fun m => m.role == "system")

theorem drain_eq_some {l out : List Message} {a b : Nat} :
    drain l a b = some out ↔ a ≤ b ∧ b ≤ l.length ∧ out = l.take a ++ l.drop b := by
  unfold drain
  split <;> simp_all [eq_comm]

theorem keepMsg_iff {t : Nat} {m : Message} :
    keepMsg t m = true ↔ m.role = "system" ∨ m.content.utf8ByteSize ≤ t := by
  simp [keepMsg]

theorem mem_oversizeFilter {m : Message} {msgs : List Message} {t : Nat} :
    m ∈ oversizeFilter msgs t ↔ m ∈ msgs ∧ keepMsg t m = true :=
  List.mem_filter

theorem oversizeFilter_idem (msgs : List Message) (t : Nat) :
    oversizeFilter (oversizeFilter msgs t) t = oversizeFilter msgs t :=
  List.filter_eq_self.mpr fun _ ha => (List.mem_filter.mp ha).2

theorem trim_mem_keep {msgs out : List Message} {t : Nat} (h2 : ¬ msgs.length ≤ 2)
    (h : trim_context msgs t = some out) {m : Message} (hm : m ∈ out) :
    keepMsg t m = true := by
  unfold trim_context at h
  rw [if_neg h2] at h
  by_cases h3 : (oversizeFilter msgs t).length > 3
  · rw [if_pos h3] at h
    obtain ⟨-, -, rfl⟩ := drain_eq_some.mp h
    rcases List.mem_append.mp hm with hm | hm
    · exact (List.mem_filter.mp (List.mem_of_mem_take hm)).2
    · exact (List.mem_filter.mp (List.mem_of_mem_drop hm)).2
  · rw [if_neg h3] at h
    cases h
    exact (List.mem_filter.mp hm).2

theorem trim_short_eq (msgs : List Message) (t : Nat) (h : msgs.length ≤ 2) :
    trim_context msgs t = some msgs := by
  unfold trim_context
  rw [if_pos h]

/-- C7: for every turn list with length at most 2 and every budget,
`trim_context` is a no-op: the turn list is returned unchanged. -/
theorem trim_context_short_noop (msgs : List Message) (t : Nat) (h : msgs.length ≤ 2) :
    trim_context msgs t = some msgs :=
  trim_short_eq msgs t h

theorem trim_context_short_noop_witness :
    trim_context [Message.mk "system" "s", Message.mk "user" "u"] 0 =
      some [Message.mk "system" "s", Message.mk "user" "u"] :=
  trim_context_short_noop [Message.mk "system" "s", Message.mk "user" "u"] 0 (by decide)

/-- C5 counterexample: the filter step measures UTF-8 bytes, not characters.
The non-system turn `user "你好嗎"` has 3 characters, not exceeding the
budget 5, yet the filter removes it (its byte length is 9 > 5) from a list
with more than 2 turns. -/
theorem oversizeFilter_chars_counterexample :
    ([⟨"system", "s"⟩, ⟨"user", "你好嗎"⟩, ⟨"user", "ok"⟩] : List Message).length > 2 ∧
    (Message.mk "user" "你好嗎").content.length ≤ 5 ∧
    Message.mk "user" "你好嗎" ∉
      oversizeFilter [⟨"system", "s"⟩, ⟨"user", "你好嗎"⟩, ⟨"user", "ok"⟩] 5 := by
  decide

/-- C5 (amended): for every turn list with more than 2 turns, the filter step
of `trim_context` keeps order (it yields a sublist) and retains exactly the
turns that are system turns or whose content length in UTF-8 bytes is within
the budget — i.e. it removes exactly the non-system turns whose byte length
exceeds the budget, regardless of position, and never removes a system turn. -/
theorem oversizeFilter_spec (msgs : List Message) (t : Nat) (_h2 : 2 < msgs.length) :
    List.Sublist (oversizeFilter msgs t) msgs ∧
    ∀ m, m ∈ oversizeFilter msgs t ↔
      m ∈ msgs ∧ (m.role = "system" ∨ m.content.utf8ByteSize ≤ t) := by
  refine ⟨List.filter_sublist _, fun m => ?_⟩
  rw [mem_oversizeFilter, keepMsg_iff]

theorem oversizeFilter_spec_witness :
    ([⟨"system", "s"⟩, ⟨"user", "你好嗎"⟩, ⟨"user", "ok"⟩] : List Message).length > 2 ∧
    (List.Sublist (oversizeFilter [⟨"system", "s"⟩, ⟨"user", "你好嗎"⟩, ⟨"user", "ok"⟩] 5)
      [⟨"system", "s"⟩, ⟨"user", "你好嗎"⟩, ⟨"user", "ok"⟩] ∧
    ∀ m, m ∈ oversizeFilter [⟨"system", "s"⟩, ⟨"user", "你好嗎"⟩, ⟨"user", "ok"⟩] 5 ↔
      m ∈ ([⟨"system", "s"⟩, ⟨"user", "你好嗎"⟩, ⟨"user", "ok"⟩] : List Message) ∧
      (m.role = "system" ∨ m.content.utf8ByteSize ≤ 5)) :=
  ⟨by decide,
    oversizeFilter_spec [⟨"system", "s"⟩, ⟨"user", "你好嗎"⟩, ⟨"user", "ok"⟩] 5 (by decide)⟩

/-- C10: if the user enters a non-command message whose content length, as
measured by the implementation (UTF-8 bytes), exceeds the context budget, and
at least 3 turns are present after appending it, then the trim performed
between append and send removes that just-appended user turn: the turn list
sent to the remote model does not contain it. -/
theorem oversized_user_turn_not_sent (history : List Message) (input : String) (budget : Nat)
    (hsize : budget < (userMsg input).content.utf8ByteSize)
    (hlen : 3 ≤ (history ++ [userMsg input]).length)
    (trimmed : List Message)
    (h : trim_context (history ++ [userMsg input]) budget = some trimmed) :
    userMsg input ∉ trimmed := by
  intro hmem
  have hkeep : keepMsg budget (userMsg input) = true :=
    trim_mem_keep (by omega) h hmem
  rw [keepMsg_iff] at hkeep
  simp [userMsg] at hkeep hsize
  omega

theorem oversized_user_turn_not_sent_witness :
    userMsg "ccc" ∉ ([⟨"system", "s"⟩, ⟨"user", "aa"⟩] : List Message) :=
  oversized_user_turn_not_sent [⟨"system", "s"⟩, ⟨"user", "aa"⟩] "ccc" 2
    (by decide) (by decide) [⟨"system", "s"⟩, ⟨"user", "aa"⟩] (by decide)

theorem position_cons (p : Message → Bool) (m : Message) (rest : List Message) :
    position p (m :: rest) = if p m then some 0 else (position p rest).map (· + 1) := rfl

theorem firstNonSystem_pos {m : Message} (rest : List Message) (h : m.role = "system") :
    1 ≤ firstNonSystem (m :: rest) := by
  unfold firstNonSystem
  rw [position_cons]
  have hb : (m.role != "system") = false := by simp [h]
  rw [hb]
  cases position (fun m => m.role != "system") rest <;> simp

theorem firstNonSystem_le_one {msgs : List Message} (hc : sysCount msgs ≤ 1)
    (hl : 2 ≤ msgs.length) : firstNonSystem msgs ≤ 1 := by
  match msgs with
  | m1 :: m2 :: rest =>
    by_cases h1 : (m1.role != "system") = true
    · simp [firstNonSystem, position_cons, h1]
    · have h1s : m1.role = "system" := by simpa using h1
      have h2 : (m2.role != "system") = true := by
        simp only [sysCount, List.countP_cons, h1s] at hc
        by_cases hb : (m2.role == "system") = true
        · simp [hb] at hc
        · simpa using hb
      have h1f : (m1.role != "system") = false := by simpa using h1
      simp [firstNonSystem, position_cons, h1f, h2]

theorem sysCount_filter_le (msgs : List Message) (t : Nat) :
    sysCount (oversizeFilter msgs t) ≤ sysCount msgs := by
  unfold sysCount oversizeFilter
  exact List.Sublist.countP_le _ (List.filter_sublist msgs)

/-- C3 counterexample: on `[system, system, system, user]` the drain range of
step 3 is inverted (first non-system index 3 > length − 2 = 2) and
`Vec::drain(3..2)` panics — modelled as `none` — instead of performing no
deletion, so `trim_context` is not total over all turn lists. -/
theorem trim_context_inverted_range_counterexample :
    trim_context [⟨"system", "1"⟩, ⟨"system", "2"⟩, ⟨"system", "3"⟩, ⟨"user", "u"⟩] 100 =
      none := by
  decide

/-- C3 (amended): for every turn list containing at most one system turn (the
program invariant) and every budget, `trim_context` never panics — it always
returns a result — and it performs no I/O by construction; moreover an empty
step-3 drain range (start = end, in range) deletes nothing. -/
theorem trim_context_total (msgs : List Message) (t : Nat) (hc : sysCount msgs ≤ 1) :
    (trim_context msgs t).isSome = true ∧
    ∀ (l : List Message) (a : Nat), a ≤ l.length → drain l a a = some l := by
  constructor
  · unfold trim_context
    by_cases h2 : msgs.length ≤ 2
    · simp [h2]
    · rw [if_neg h2]
      by_cases h3 : (oversizeFilter msgs t).length > 3
      · rw [if_pos h3]
        have hcf : sysCount (oversizeFilter msgs t) ≤ 1 :=
          le_trans (sysCount_filter_le msgs t) hc
        have hfi : firstNonSystem (oversizeFilter msgs t) ≤ 1 :=
          firstNonSystem_le_one hcf (by omega)
        unfold drain
        rw [if_pos ⟨by omega, by omega⟩]
        rfl
      · simp [h3]
  · intro l a ha
    unfold drain
    rw [if_pos ⟨le_refl a, ha⟩, List.take_append_drop]

theorem trim_context_total_witness :
    sysCount [Message.mk "system" "s", Message.mk "user" "u", Message.mk "assistant" "a",
      Message.mk "user" "v"] ≤ 1 ∧
    ((trim_context [Message.mk "system" "s", Message.mk "user" "u", Message.mk "assistant" "a",
      Message.mk "user" "v"] 5).isSome = true ∧
    ∀ (l : List Message) (a : Nat), a ≤ l.length → drain l a a = some l) :=
  ⟨by decide,
    trim_context_total [Message.mk "system" "s", Message.mk "user" "u",
      Message.mk "assistant" "a", Message.mk "user" "v"] 5 (by decide)⟩

/-- C4 counterexample: on the non-empty turn list `[user "x"]` trim is a
no-op, so the first element of the result has role `"user"`, not `"system"`:
the property does not hold for every non-empty starting turn list. -/
theorem trim_first_system_counterexample :
    trim_context [Message.mk "user" "x"] 0 = some [Message.mk "user" "x"] ∧
    (Message.mk "user" "x").role ≠ "system" := by
  decide

/-- C4 (amended): for every starting turn list whose first element has role
`"system"` and every budget, whenever `trim_context` returns a result the
result is non-empty and its first element has role `"system"`. -/
theorem trim_first_system (msgs out : List Message) (t : Nat) (m : Message)
    (hhead : msgs.head? = some m) (hrole : m.role = "system")
    (h : trim_context msgs t = some out) :
    ∃ m2, out.head? = some m2 ∧ m2.role = "system" := by
  match msgs, hhead with
  | m :: rest, rfl =>
    have hkeep : keepMsg t m = true := keepMsg_iff.mpr (Or.inl hrole)
    have hfl : oversizeFilter (m :: rest) t = m :: oversizeFilter rest t := by
      unfold oversizeFilter
      rw [List.filter_cons_of_pos hkeep]
    unfold trim_context at h
    by_cases h2 : (m :: rest).length ≤ 2
    · rw [if_pos h2] at h
      cases h
      exact ⟨m, rfl, hrole⟩
    · rw [if_neg h2] at h
      by_cases h3 : (oversizeFilter (m :: rest) t).length > 3
      · rw [if_pos h3] at h
        obtain ⟨hab, hbl, rfl⟩ := drain_eq_some.mp h
        have hfi : 1 ≤ firstNonSystem (oversizeFilter (m :: rest) t) := by
          rw [hfl]
          exact firstNonSystem_pos (oversizeFilter rest t) hrole
        have hfi1 : firstNonSystem (oversizeFilter (m :: rest) t) =
            (firstNonSystem (oversizeFilter (m :: rest) t) - 1) + 1 := by omega
        refine ⟨m, ?_, hrole⟩
        rw [hfi1, hfl, List.take_succ_cons]
        rfl
      · rw [if_neg h3] at h
        cases h
        rw [hfl]
        exact ⟨m, rfl, hrole⟩

theorem trim_first_system_witness :
    ([Message.mk "system" "s", Message.mk "user" "u", Message.mk "assistant" "a",
      Message.mk "user" "v", Message.mk "assistant" "b"] : List Message).head? =
        some (Message.mk "system" "s") ∧
    ∃ m2, (([Message.mk "system" "s", Message.mk "user" "v",
      Message.mk "assistant" "b"] : List Message)).head? =
      some m2 ∧ m2.role = "system" :=
  ⟨rfl,
    trim_first_system
      [Message.mk "system" "s", Message.mk "user" "u", Message.mk "assistant" "a",
        Message.mk "user" "v", Message.mk "assistant" "b"]
      [Message.mk "system" "s", Message.mk "user" "v", Message.mk "assistant" "b"] 5
      (Message.mk "system" "s") rfl rfl (by decide)⟩

/-- C1 counterexample: the same shape as the §8 scenario at a smaller scale
(budget 3 instead of 8000, a 4-byte oversized turn instead of 9000 chars).
Input `[system, user "aa", assistant "bb", user "cccc", assistant "dd",
user "ee"]` with budget 3: the filter removes the oversized `user "cccc"`,
but the drain then also deletes the first non-system survivor `user "aa"`
(and `assistant "bb"`): `drain` starts at the found index inclusively, so
the result is `[system, assistant "dd", user "ee"]` — the claim that the
first non-system turn found is retained is false. -/
theorem trim_context_window_counterexample :
    trim_context [⟨"system", "s"⟩, ⟨"user", "aa"⟩, ⟨"assistant", "bb"⟩,
        ⟨"user", "cccc"⟩, ⟨"assistant", "dd"⟩, ⟨"user", "ee"⟩] 3 =
      some [⟨"system", "s"⟩, ⟨"assistant", "dd"⟩, ⟨"user", "ee"⟩] ∧
    Message.mk "user" "aa" ∉
      ([⟨"system", "s"⟩, ⟨"assistant", "dd"⟩, ⟨"user", "ee"⟩] : List Message) := by
  decide

/-- C1 (amended): for every turn list with more than 3 turns remaining after
the oversize filter, when the drain range is not inverted `trim_context`
deletes exactly the filtered turns from the first non-system index (default 1
when no non-system turn exists) — that index included — up to two-from-the-end
(excluded): the result is the prefix strictly before that index followed by
the final two turns.  The turn at the first non-system index is deleted, not
retained; only the leading system prefix and the final two turns survive. -/
theorem trim_context_window (msgs : List Message) (t : Nat)
    (h3 : (oversizeFilter msgs t).length > 3)
    (hfi : firstNonSystem (oversizeFilter msgs t) ≤ (oversizeFilter msgs t).length - 2) :
    trim_context msgs t =
      some ((oversizeFilter msgs t).take (firstNonSystem (oversizeFilter msgs t)) ++
        (oversizeFilter msgs t).drop ((oversizeFilter msgs t).length - 2)) := by
  have hlf : (oversizeFilter msgs t).length ≤ msgs.length := List.length_filter_le _ msgs
  have h2 : ¬ msgs.length ≤ 2 := by omega
  unfold trim_context
  rw [if_neg h2, if_pos h3]
  exact drain_eq_some.mpr ⟨hfi, by omega, rfl⟩

theorem trim_context_window_witness :
    (oversizeFilter [⟨"system", "s"⟩, ⟨"user", "aa"⟩, ⟨"assistant", "bb"⟩,
        ⟨"user", "cccc"⟩, ⟨"assistant", "dd"⟩, ⟨"user", "ee"⟩] 3).length > 3 ∧
    trim_context [⟨"system", "s"⟩, ⟨"user", "aa"⟩, ⟨"assistant", "bb"⟩,
        ⟨"user", "cccc"⟩, ⟨"assistant", "dd"⟩, ⟨"user", "ee"⟩] 3 =
      some ((oversizeFilter [⟨"system", "s"⟩, ⟨"user", "aa"⟩, ⟨"assistant", "bb"⟩,
          ⟨"user", "cccc"⟩, ⟨"assistant", "dd"⟩, ⟨"user", "ee"⟩] 3).take
          (firstNonSystem (oversizeFilter [⟨"system", "s"⟩, ⟨"user", "aa"⟩,
            ⟨"assistant", "bb"⟩, ⟨"user", "cccc"⟩, ⟨"assistant", "dd"⟩,
            ⟨"user", "ee"⟩] 3)) ++
        (oversizeFilter [⟨"system", "s"⟩, ⟨"user", "aa"⟩, ⟨"assistant", "bb"⟩,
          ⟨"user", "cccc"⟩, ⟨"assistant", "dd"⟩, ⟨"user", "ee"⟩] 3).drop
          ((oversizeFilter [⟨"system", "s"⟩, ⟨"user", "aa"⟩, ⟨"assistant", "bb"⟩,
            ⟨"user", "cccc"⟩, ⟨"assistant", "dd"⟩, ⟨"user", "ee"⟩] 3).length - 2)) :=
  ⟨by decide,
    trim_context_window [⟨"system", "s"⟩, ⟨"user", "aa"⟩, ⟨"assistant", "bb"⟩,
      ⟨"user", "cccc"⟩, ⟨"assistant", "dd"⟩, ⟨"user", "ee"⟩] 3 (by decide) (by decide)⟩

theorem oversizeFilter_eq_self {l : List Message} {t : Nat}
    (h : ∀ m ∈ l, keepMsg t m = true) : oversizeFilter l t = l :=
  List.filter_eq_self.mpr h

theorem trim_context_of_short_kept {l : List Message} {t : Nat} (hlen : l.length ≤ 3)
    (hk : ∀ m ∈ l, keepMsg t m = true) : trim_context l t = some l := by
  by_cases h2 : l.length ≤ 2
  · exact trim_short_eq l t h2
  · unfold trim_context
    rw [if_neg h2, oversizeFilter_eq_self hk, if_neg (by omega)]

/-- C6 counterexample: trim is not idempotent.  On
`[system "1", system "2", user "u", system "3", system "4"]` with budget 10 the
first trim drains the `user` turn, yielding the all-system list
`[system "1", system "2", system "3", system "4"]`; the second trim then finds
no non-system turn, defaults the drain start to index 1 and deletes
`system "2"`, yielding a strictly shorter list. -/
theorem trim_context_idem_counterexample :
    trim_context [⟨"system", "1"⟩, ⟨"system", "2"⟩, ⟨"user", "u"⟩, ⟨"system", "3"⟩,
        ⟨"system", "4"⟩] 10 =
      some [⟨"system", "1"⟩, ⟨"system", "2"⟩, ⟨"system", "3"⟩, ⟨"system", "4"⟩] ∧
    trim_context [⟨"system", "1"⟩, ⟨"system", "2"⟩, ⟨"system", "3"⟩, ⟨"system", "4"⟩] 10 =
      some [⟨"system", "1"⟩, ⟨"system", "3"⟩, ⟨"system", "4"⟩] ∧
    ([⟨"system", "1"⟩, ⟨"system", "3"⟩, ⟨"system", "4"⟩] : List Message) ≠
      [⟨"system", "1"⟩, ⟨"system", "2"⟩, ⟨"system", "3"⟩, ⟨"system", "4"⟩] := by
  decide

/-- C6 (amended): for every turn list containing at most one system turn (the
program invariant) and every budget, trim is idempotent: if the first call
returns `out`, calling trim on `out` with the same budget returns `out`
unchanged. -/
theorem trim_context_idem (msgs out : List Message) (t : Nat) (hc : sysCount msgs ≤ 1)
    (h : trim_context msgs t = some out) : trim_context out t = some out := by
  by_cases h2 : msgs.length ≤ 2
  · unfold trim_context at h
    rw [if_pos h2] at h
    cases h
    exact trim_short_eq msgs t h2
  · unfold trim_context at h
    rw [if_neg h2] at h
    have hkfl : ∀ m ∈ oversizeFilter msgs t, keepMsg t m = true :=
      fun m hm => (List.mem_filter.mp hm).2
    by_cases h3 : (oversizeFilter msgs t).length > 3
    · rw [if_pos h3] at h
      obtain ⟨hab, hbl, rfl⟩ := drain_eq_some.mp h
      have hcf : sysCount (oversizeFilter msgs t) ≤ 1 :=
        le_trans (sysCount_filter_le msgs t) hc
      have hfile : firstNonSystem (oversizeFilter msgs t) ≤ 1 :=
        firstNonSystem_le_one hcf (by omega)
      refine trim_context_of_short_kept ?_ ?_
      · rw [List.length_append, List.length_take, List.length_drop]
        have := Nat.min_le_left (firstNonSystem (oversizeFilter msgs t))
          (oversizeFilter msgs t).length
        omega
      · intro m hm
        rcases List.mem_append.mp hm with hm | hm
        · exact hkfl m (List.mem_of_mem_take hm)
        · exact hkfl m (List.mem_of_mem_drop hm)
    · rw [if_neg h3] at h
      cases h
      exact trim_context_of_short_kept (by omega) hkfl

theorem trim_context_idem_witness :
    sysCount [⟨"system", "s"⟩, ⟨"user", "u1"⟩, ⟨"assistant", "a1"⟩, ⟨"user", "u2"⟩,
      ⟨"assistant", "a2"⟩] ≤ 1 ∧
    trim_context [⟨"system", "s"⟩, ⟨"user", "u2"⟩, ⟨"assistant", "a2"⟩] 5 =
      some [⟨"system", "s"⟩, ⟨"user", "u2"⟩, ⟨"assistant", "a2"⟩] :=
  ⟨by decide,
    trim_context_idem
      [⟨"system", "s"⟩, ⟨"user", "u1"⟩, ⟨"assistant", "a1"⟩, ⟨"user", "u2"⟩,
        ⟨"assistant", "a2"⟩]
      [⟨"system", "s"⟩, ⟨"user", "u2"⟩, ⟨"assistant", "a2"⟩] 5 (by decide) (by decide)⟩

/-- C2 counterexample: a failed exchange does not restore the pre-append
length.  Pre-append `turns = [system, user u1, assistant a1, user u2,
assistant a2]` (5 turns, all short), input `"hi"`, budget 8000: trim drains
`u1, a1, u2`, the failure pops the user turn, and only
`[system, assistant a2]` (2 turns) remains — not 5. -/
theorem rollback_counterexample :
    failedExchange [⟨"system", "s"⟩, ⟨"user", "u1"⟩, ⟨"assistant", "a1"⟩, ⟨"user", "u2"⟩,
        ⟨"assistant", "a2"⟩] "hi" 8000 =
      some [⟨"system", "s"⟩, ⟨"assistant", "a2"⟩] ∧
    ([⟨"system", "s"⟩, ⟨"assistant", "a2"⟩] : List Message).length ≠
      ([⟨"system", "s"⟩, ⟨"user", "u1"⟩, ⟨"assistant", "a1"⟩, ⟨"user", "u2"⟩,
        ⟨"assistant", "a2"⟩] : List Message).length := by
  decide

/-- C2 (amended): on a send failure the loop pops the last post-trim turn, so
(for a user turn not already duplicated in the history) the just-appended user
turn is absent afterwards — it was either dropped by the oversize filter or is
the popped last element — and the resulting length is the post-trim length
minus one.  Equality with the pre-append length holds only when trim deleted
nothing. -/
theorem rollback_spec (history : List Message) (input : String) (budget : Nat)
    (trimmed : List Message)
    (hfresh : userMsg input ∉ history)
    (h : trim_context (history ++ [userMsg input]) budget = some trimmed) :
    failedExchange history input budget = some trimmed.dropLast ∧
    userMsg input ∉ trimmed.dropLast ∧
    trimmed.dropLast.length = trimmed.length - 1 := by
  refine ⟨by unfold failedExchange; rw [h], ?_, List.length_dropLast trimmed⟩
  by_cases h2 : (history ++ [userMsg input]).length ≤ 2
  · unfold trim_context at h
    rw [if_pos h2] at h
    cases h
    rw [List.dropLast_concat]
    exact hfresh
  · by_cases hpm : keepMsg budget (userMsg input) = true
    · have hsplit : oversizeFilter (history ++ [userMsg input]) budget =
          oversizeFilter history budget ++ [userMsg input] := by
        unfold oversizeFilter
        rw [List.filter_append, List.filter_cons_of_pos hpm, List.filter_nil]
      unfold trim_context at h
      rw [if_neg h2] at h
      by_cases h3 : (oversizeFilter (history ++ [userMsg input]) budget).length > 3
      · rw [if_pos h3] at h
        obtain ⟨hab, hbl, rfl⟩ := drain_eq_some.mp h
        rw [hsplit] at hab h3 ⊢
        have hlen : (oversizeFilter history budget ++ [userMsg input]).length =
            (oversizeFilter history budget).length + 1 := by simp
        rw [hlen] at hab h3 ⊢
        have htake : List.take
            (firstNonSystem (oversizeFilter history budget ++ [userMsg input]))
            (oversizeFilter history budget ++ [userMsg input]) =
            List.take (firstNonSystem (oversizeFilter history budget ++ [userMsg input]))
              (oversizeFilter history budget) :=
          List.take_append_of_le_length (by omega)
        have hdrop : List.drop ((oversizeFilter history budget).length + 1 - 2)
            (oversizeFilter history budget ++ [userMsg input]) =
            List.drop ((oversizeFilter history budget).length + 1 - 2)
              (oversizeFilter history budget) ++ [userMsg input] :=
          List.drop_append_of_le_length (by omega)
        rw [htake, hdrop, ← List.append_assoc, List.dropLast_concat]
        intro hmem
        rcases List.mem_append.mp hmem with hm | hm
        · exact hfresh (List.mem_of_mem_filter (List.mem_of_mem_take hm))
        · exact hfresh (List.mem_of_mem_filter (List.mem_of_mem_drop hm))
      · rw [if_neg h3] at h
        cases h
        rw [hsplit, List.dropLast_concat]
        intro hm
        exact hfresh (List.mem_of_mem_filter hm)
    · intro hmem
      exact hpm (trim_mem_keep h2 h (List.mem_of_mem_dropLast hmem))

theorem rollback_spec_witness :
    userMsg "hi" ∉ ([⟨"system", "s"⟩, ⟨"user", "u1"⟩, ⟨"assistant", "a1"⟩, ⟨"user", "u2"⟩,
      ⟨"assistant", "a2"⟩] : List Message) ∧
    (failedExchange [⟨"system", "s"⟩, ⟨"user", "u1"⟩, ⟨"assistant", "a1"⟩, ⟨"user", "u2"⟩,
        ⟨"assistant", "a2"⟩] "hi" 8000 =
      some ([⟨"system", "s"⟩, ⟨"assistant", "a2"⟩, userMsg "hi"] : List Message).dropLast ∧
    userMsg "hi" ∉ ([⟨"system", "s"⟩, ⟨"assistant", "a2"⟩, userMsg "hi"] :
      List Message).dropLast ∧
    (([⟨"system", "s"⟩, ⟨"assistant", "a2"⟩, userMsg "hi"] : List Message)).dropLast.length =
      ([⟨"system", "s"⟩, ⟨"assistant", "a2"⟩, userMsg "hi"] : List Message).length - 1) :=
  ⟨by decide,
    rollback_spec [⟨"system", "s"⟩, ⟨"user", "u1"⟩, ⟨"assistant", "a1"⟩, ⟨"user", "u2"⟩,
      ⟨"assistant", "a2"⟩] "hi" 8000
      [⟨"system", "s"⟩, ⟨"assistant", "a2"⟩, userMsg "hi"] (by decide) (by decide)⟩

/-- C8: `ask_qwen` fails with the remote error carrying the status code and
the raw (unparsed) body exactly when the HTTP status is non-success; on a
success status whose parsed body has an empty `choices` array it fails with
the empty-reply error; on success with non-empty `choices` it returns the
first choice's message content together with `usage.total_tokens`, defaulting
the token count to 0 when `usage` is absent. -/
theorem ask_qwen_spec (resp : HttpResponse) (decodeBody : String → Option QwenResponse) :
    (statusIsSuccess resp.status = false →
      ask_qwen resp decodeBody = .error (.remote resp.status resp.body)) ∧
    (statusIsSuccess resp.status = true →
      ∀ s b, ask_qwen resp decodeBody ≠ .error (.remote s b)) ∧
    (∀ qr, statusIsSuccess resp.status = true → decodeBody resp.body = some qr →
      qr.choices = [] → ask_qwen resp decodeBody = .error .emptyReply) ∧
    (∀ qr c rest, statusIsSuccess resp.status = true → decodeBody resp.body = some qr →
      qr.choices = c :: rest →
      ask_qwen resp decodeBody =
        .ok (c.message.content, (qr.usage.map QwenUsage.total_tokens).getD 0)) := by
  refine ⟨fun hs => by simp [ask_qwen, hs], fun hs s b => ?_, fun qr hs hdec hch => ?_,
    fun qr c rest hs hdec hch => ?_⟩
  · simp only [ask_qwen, hs, Bool.not_true, Bool.false_eq_true, if_false]
    cases hdec : decodeBody resp.body with
    | none => simp
    | some qr =>
      cases hh : qr.choices.head? with
      | none => simp [hh]
      | some c => simp [hh]
  · simp [ask_qwen, hs, hdec, hch]
  · simp [ask_qwen, hs, hdec, hch]

theorem ask_qwen_spec_witness :
    (statusIsSuccess 404 = false →
      ask_qwen ⟨404, "bad"⟩ (fun _ => none) = .error (.remote 404 "bad")) ∧
    ((statusIsSuccess 404 = true →
      ∀ s b, ask_qwen ⟨404, "bad"⟩ (fun _ => none) ≠ .error (.remote s b)) ∧
    (∀ qr, statusIsSuccess 404 = true → (fun (_ : String) => (none : Option QwenResponse)) "bad" = some qr →
      qr.choices = [] → ask_qwen ⟨404, "bad"⟩ (fun _ => none) = .error .emptyReply) ∧
    (∀ qr c rest, statusIsSuccess 404 = true →
      (fun (_ : String) => (none : Option QwenResponse)) "bad" = some qr →
      qr.choices = c :: rest →
      ask_qwen ⟨404, "bad"⟩ (fun _ => none) =
        .ok (c.message.content, (qr.usage.map QwenUsage.total_tokens).getD 0))) :=
  ⟨(ask_qwen_spec ⟨404, "bad"⟩ (fun _ => none)).1,
    (ask_qwen_spec ⟨404, "bad"⟩ (fun _ => none)).2⟩

theorem msgFromJson_msgToJson (m : Message) : msgFromJson (msgToJson m) = some m := rfl

theorem msgsFromJson_map (ms : List Message) : msgsFromJson (ms.map msgToJson) = some ms := by
  induction ms with
  | nil => rfl
  | cons m rest ih =>
    unfold msgsFromJson
    simp [msgFromJson_msgToJson, ih]

/-- C9: the conversation store serializes the full conversation — the
timestamp plus all turns, the system turn included — as a JSON value, and
deserializing that value reproduces the identical conversation: the reloaded
turn sequence preserves order, roles and contents (round-trip). -/
theorem conversation_roundtrip (c : Conversation) : convFromJson (convToJson c) = some c := by
  simp [convFromJson, convToJson, Json.lookupField, msgsFromJson_map]
